import Mathlib

/-!
Verification of the version-normalization pipeline of the
`rust-bitcoind-json-rpc` repository against its specification.

The Rust code is shallowly embedded: pure functions become Lean functions,
`Result` becomes `Except`, and a Rust function that can panic is embedded
with an `Option` wrapper whose `none` value marks the panic (`assert!`,
`panic!`, `todo!`).  Machine integers (`i64`, `u32`, `usize`) are embedded
as `Int`/`Nat`; the embedded code never relies on wrap-around, and range
checks appear explicitly where the source performs them.
-/

namespace BitcoindRpc

/-- Shallow embedding of `serde_json::Value`.  JSON numbers are embedded as
exact decimals (integer mantissa over a power-of-ten scale), which covers
every literal a JSON document can carry; the argument encoder only ever
compares values against `null`, so the numeric representation is inert. -/
inductive JValue where
  | null : JValue
  | bool (b : Bool) : JValue
  | num (mantissa : Int) (scale : Nat) : JValue
  | str (s : String) : JValue
  | arr (elems : List JValue) : JValue
  | obj (fields : List (String × JValue)) : JValue

/-- The comparison `v == serde_json::Value::Null` used by `handle_defaults`:
true exactly on the null sentinel. -/
def JValue.isNull : JValue → Bool
  | .null => true
  | _ => false

theorem JValue.isNull_iff (v : JValue) : v.isNull = true ↔ v = JValue.null := by
  cases v <;> simp [JValue.isNull]

/-- One pass of the `for i in 0..defaults.len()` loop of `handle_defaults`
(`client/src/client_sync/mod.rs`).  `fuel` counts the iterations still to
run and `i` is the current loop counter; the loop visits `args` from the
back (`args_i = args.len() - 1 - i`, `defaults_i = defaults.len() - 1 - i`).
The state is the (mutable in Rust) argument array together with
`first_non_null_optional_idx`; the `panic!("Missing `default` ...")` is
embedded as `none`.  Indices are in bounds whenever the caller's length
guard holds, so `List.getD` never falls back to its default there. -/
def hdLoop (defaults : List JValue) : Nat → Nat → List JValue → Option Nat →
    Option (List JValue × Option Nat)
  | 0, _, args, first => some (args, first)
  | fuel + 1, i, args, first =>
    let argsI := args.length - 1 - i
    let defaultsI := defaults.length - 1 - i
    if (args.getD argsI JValue.null).isNull then
      match first with
      | some _ =>
        if (defaults.getD defaultsI JValue.null).isNull then
          none
        else
          hdLoop defaults fuel (i + 1)
            (args.set argsI (defaults.getD defaultsI JValue.null)) first
      | none => hdLoop defaults fuel (i + 1) args first
    else
      match first with
      | some _ => hdLoop defaults fuel (i + 1) args first
      | none => hdLoop defaults fuel (i + 1) args (some argsI)

/-- Embedding of `handle_defaults` (`client/src/client_sync/mod.rs`).
Substitutes `Value::Null` argument slots with the corresponding entry of
`defaults`, except when they are trailing, in which case they are cut off
the returned list.  The Rust function mutates `args` in place and returns
a borrowed prefix of it; here the returned prefix is materialized.  `none`
embeds a panic: either the `assert!(args.len() >= defaults.len())` guard
or the `panic!` on a null slot with a null default. -/
def handle_defaults (args defaults : List JValue) : Option (List JValue) :=
  if defaults.length ≤ args.length then
    match hdLoop defaults defaults.length 0 args none with
    | none => none
    | some (args', first) =>
      match first with
      | some i => some (args'.take (i + 1))
      | none => some (args'.take (args.length - defaults.length))
  else
    none

/-- Largest index `j` with `reqN ≤ j < n` whose `args` slot is not null,
scanning downwards from `n`.  This mirrors what the loop of
`handle_defaults` records in `first_non_null_optional_idx`. -/
def rightmostNonNullBelow (args : List JValue) (reqN : Nat) : Nat → Option Nat
  | 0 => none
  | j + 1 =>
    if reqN ≤ j ∧ (args.getD j JValue.null).isNull = false then some j
    else rightmostNonNullBelow args reqN j

/-- Index of the rightmost optional slot of `args` (the last
`defaults`-many slots are optional) holding a non-null value, if any. -/
def rightmostNonNull (args : List JValue) (reqN : Nat) : Option Nat :=
  rightmostNonNullBelow args reqN args.length

theorem getD_set_self {α : Type} (l : List α) (i : Nat) (a d : α) (h : i < l.length) :
    (l.set i a).getD i d = a := by
  induction l generalizing i with
  | nil => simp at h
  | cons x xs ih =>
    cases i with
    | zero => rfl
    | succ n =>
      have hn : n < xs.length := by simpa using h
      simpa [List.getD_cons_succ] using ih n hn

theorem getD_set_ne {α : Type} (l : List α) (i j : Nat) (a d : α) (h : i ≠ j) :
    (l.set i a).getD j d = l.getD j d := by
  induction l generalizing i j with
  | nil => rfl
  | cons x xs ih =>
    cases i with
    | zero =>
      cases j with
      | zero => exact absurd rfl h
      | succ m => rfl
    | succ n =>
      cases j with
      | zero => rfl
      | succ m =>
        have : n ≠ m := fun hnm => h (by rw [hnm])
        simpa [List.getD_cons_succ] using ih n m this

theorem getD_take_of_lt {α : Type} (l : List α) (n j : Nat) (d : α) (h : j < n) :
    (l.take n).getD j d = l.getD j d := by
  induction l generalizing n j with
  | nil => simp
  | cons x xs ih =>
    cases n with
    | zero => omega
    | succ m =>
      cases j with
      | zero => rfl
      | succ k =>
        have hk : k < m := by omega
        simpa [List.getD_cons_succ] using ih m k hk

/-- Unfolding equation for one iteration of the `handle_defaults` loop. -/
theorem hdLoop_succ (defaults : List JValue) (fuel i : Nat) (args : List JValue)
    (first : Option Nat) :
    hdLoop defaults (fuel + 1) i args first =
      if (args.getD (args.length - 1 - i) JValue.null).isNull then
        match first with
        | some _ =>
          if (defaults.getD (defaults.length - 1 - i) JValue.null).isNull then
            none
          else
            hdLoop defaults fuel (i + 1)
              (args.set (args.length - 1 - i)
                (defaults.getD (defaults.length - 1 - i) JValue.null)) first
        | none => hdLoop defaults fuel (i + 1) args first
      else
        match first with
        | some _ => hdLoop defaults fuel (i + 1) args first
        | none => hdLoop defaults fuel (i + 1) args (some (args.length - 1 - i)) := rfl

/-- Once a non-null optional has been seen (`first = some p`), the loop
panics as soon as it scans a null slot whose default is also null.  The
scanned range of the remaining `fuel` iterations is
`args.length - i - fuel ≤ j ≤ args.length - 1 - i`, written here in
addition form. -/
theorem hdLoop_some_gap (defaults : List JValue) (fuel : Nat) :
    ∀ (i : Nat) (args : List JValue) (p j : Nat),
      i + fuel ≤ defaults.length → defaults.length ≤ args.length →
      args.length ≤ j + i + fuel → j + i + 1 ≤ args.length →
      (args.getD j JValue.null).isNull = true →
      (defaults.getD (j - (args.length - defaults.length)) JValue.null).isNull = true →
      hdLoop defaults fuel i args (some p) = none := by
  induction fuel with
  | zero => intro i args p j h1 h2 h3 h4 _ _; omega
  | succ fuel ih =>
    intro i args p j h1 h2 h3 h4 hnull hdef
    rw [hdLoop_succ]
    by_cases hA : (args.getD (args.length - 1 - i) JValue.null).isNull = true
    · simp only [hA, if_true]
      by_cases hD : (defaults.getD (defaults.length - 1 - i) JValue.null).isNull = true
      · rw [if_pos hD]
      · simp only [Bool.not_eq_true] at hD
        simp only [hD, Bool.false_eq_true, if_false]
        -- the gap index cannot be the slot just processed, whose default is non-null
        have hne : j ≠ args.length - 1 - i := by
          intro hj
          have hidx : j - (args.length - defaults.length) = defaults.length - 1 - i := by
            omega
          rw [hj] at hdef
          rw [hj] at hidx
          rw [hidx] at hdef
          rw [hD] at hdef
          exact Bool.false_ne_true hdef
        have hset :
            ((args.set (args.length - 1 - i)
                (defaults.getD (defaults.length - 1 - i) JValue.null)).getD j
              JValue.null).isNull = true := by
          rw [getD_set_ne _ _ _ _ _ (fun h => hne h.symm)]
          exact hnull
        exact ih (i + 1)
          (args.set (args.length - 1 - i)
            (defaults.getD (defaults.length - 1 - i) JValue.null)) p j
          (by omega) (by simpa using h2)
          (by simp only [List.length_set]; omega)
          (by simp only [List.length_set]; omega)
          hset
          (by simpa [List.length_set] using hdef)
      -- wrong branch placeholder
    · simp only [Bool.not_eq_true] at hA
      simp only [hA, Bool.false_eq_true, if_false]
      have hne : j ≠ args.length - 1 - i := by
        intro hj; rw [hj] at hnull; rw [hA] at hnull; exact Bool.false_ne_true hnull
      exact ih (i + 1) args p j (by omega) h2 (by omega) (by omega) hnull hdef

/-- Once a non-null optional has been seen (`first = some p`), the
remaining iterations replace every null slot in the scanned range by its
default (all such defaults being non-null), leave every other slot alone,
and keep `first` unchanged. -/
theorem hdLoop_some_ok (defaults : List JValue) (fuel : Nat) :
    ∀ (i : Nat) (args : List JValue) (p : Nat),
      i + fuel ≤ defaults.length → defaults.length ≤ args.length →
      (∀ j, args.length ≤ j + i + fuel → j + i + 1 ≤ args.length →
        (args.getD j JValue.null).isNull = true →
        (defaults.getD (j - (args.length - defaults.length)) JValue.null).isNull = false) →
      ∃ args', hdLoop defaults fuel i args (some p) = some (args', some p) ∧
        args'.length = args.length ∧
        ∀ j, args'.getD j JValue.null =
          if args.length ≤ j + i + fuel ∧ j + i + 1 ≤ args.length ∧
              (args.getD j JValue.null).isNull = true
          then defaults.getD (j - (args.length - defaults.length)) JValue.null
          else args.getD j JValue.null := by
  induction fuel with
  | zero =>
    intro i args p _ _ _
    refine ⟨args, rfl, rfl, fun j => ?_⟩
    rw [if_neg]
    rintro ⟨hj1, hj2, -⟩
    omega
  | succ fuel ih =>
    intro i args p h1 h2 hgap
    rw [hdLoop_succ]
    by_cases hA : (args.getD (args.length - 1 - i) JValue.null).isNull = true
    · have hDne :
          (defaults.getD (defaults.length - 1 - i) JValue.null).isNull = false := by
        have hg := hgap (args.length - 1 - i) (by omega) (by omega) hA
        have hidx : (args.length - 1 - i) - (args.length - defaults.length) =
            defaults.length - 1 - i := by omega
        rwa [hidx] at hg
      simp only [hA, if_true, hDne, Bool.false_eq_true, if_false]
      have hlen2 :
          (args.set (args.length - 1 - i)
            (defaults.getD (defaults.length - 1 - i) JValue.null)).length =
            args.length := by
        simp
      have hget2 : ∀ j, j ≠ args.length - 1 - i →
          (args.set (args.length - 1 - i)
              (defaults.getD (defaults.length - 1 - i) JValue.null)).getD j JValue.null =
            args.getD j JValue.null := fun j hj =>
        getD_set_ne _ _ _ _ _ (fun h => hj h.symm)
      obtain ⟨args', heq, hlen', hpt⟩ :=
        ih (i + 1)
          (args.set (args.length - 1 - i)
            (defaults.getD (defaults.length - 1 - i) JValue.null)) p
          (by omega) (by rw [hlen2]; exact h2)
          (by
            intro j hj1 hj2 hj3
            rw [hlen2] at hj1 hj2 ⊢
            have hne : j ≠ args.length - 1 - i := by omega
            rw [hget2 j hne] at hj3
            exact hgap j (by omega) (by omega) hj3)
      refine ⟨args', heq, by rw [hlen', hlen2], fun j => ?_⟩
      rw [hpt j, hlen2]
      by_cases hj : j = args.length - 1 - i
      · subst hj
        rw [if_neg (by rintro ⟨-, hb, -⟩; omega)]
        rw [getD_set_self _ _ _ _ (by omega)]
        rw [if_pos ⟨by omega, by omega, hA⟩]
        have hidx : (args.length - 1 - i) - (args.length - defaults.length) =
            defaults.length - 1 - i := by omega
        rw [hidx]
      · rw [hget2 j hj]
        exact if_congr ⟨fun ⟨a, b, c⟩ => ⟨by omega, by omega, c⟩,
          fun ⟨a, b, c⟩ => ⟨by omega, by omega, c⟩⟩ rfl rfl
    · simp only [Bool.not_eq_true] at hA
      simp only [hA, Bool.false_eq_true, if_false]
      obtain ⟨args', heq, hlen', hpt⟩ :=
        ih (i + 1) args p (by omega) h2
          (fun j hj1 hj2 hj3 => hgap j (by omega) (by omega) hj3)
      refine ⟨args', heq, hlen', fun j => ?_⟩
      rw [hpt j]
      by_cases hj : j = args.length - 1 - i
      · subst hj
        rw [if_neg (by rintro ⟨-, hb, -⟩; omega), if_neg]
        rintro ⟨-, -, hc⟩
        rw [hA] at hc
        exact Bool.false_ne_true hc
      · exact if_congr ⟨fun ⟨a, b, c⟩ => ⟨by omega, by omega, c⟩,
          fun ⟨a, b, c⟩ => ⟨by omega, by omega, c⟩⟩ rfl rfl

/-- While no non-null optional has been seen, a run over an all-null range
changes nothing: the arguments come back untouched and
`first_non_null_optional_idx` stays `None`. -/
theorem hdLoop_none_allnull (defaults : List JValue) (fuel : Nat) :
    ∀ (i : Nat) (args : List JValue),
      i + fuel ≤ defaults.length → defaults.length ≤ args.length →
      (∀ j, args.length ≤ j + i + fuel → j + i + 1 ≤ args.length →
        (args.getD j JValue.null).isNull = true) →
      hdLoop defaults fuel i args none = some (args, none) := by
  induction fuel with
  | zero => intro i args _ _ _; rfl
  | succ fuel ih =>
    intro i args h1 h2 hall
    rw [hdLoop_succ]
    have hA : (args.getD (args.length - 1 - i) JValue.null).isNull = true :=
      hall (args.length - 1 - i) (by omega) (by omega)
    simp only [hA, if_true]
    exact ih (i + 1) args (by omega) h2
      (fun j hj1 hj2 => hall j (by omega) (by omega))

/-- If the scanned range has a rightmost non-null slot `r` and, somewhere
left of `r`, a null slot whose default is also null, the whole run panics. -/
theorem hdLoop_none_gap (defaults : List JValue) (fuel : Nat) :
    ∀ (i : Nat) (args : List JValue) (r j : Nat),
      i + fuel ≤ defaults.length → defaults.length ≤ args.length →
      args.length ≤ r + i + fuel → r + i + 1 ≤ args.length →
      (args.getD r JValue.null).isNull = false →
      (∀ j', r < j' → j' + i + 1 ≤ args.length →
        (args.getD j' JValue.null).isNull = true) →
      args.length ≤ j + i + fuel → j < r →
      (args.getD j JValue.null).isNull = true →
      (defaults.getD (j - (args.length - defaults.length)) JValue.null).isNull = true →
      hdLoop defaults fuel i args none = none := by
  induction fuel with
  | zero => intro i args r j h1 h2 h3 h4 _ _ _ _ _ _; omega
  | succ fuel ih =>
    intro i args r j h1 h2 h3 h4 hr hright hj1 hj2 hjnull hjdef
    rw [hdLoop_succ]
    by_cases hcase : r = args.length - 1 - i
    · have hA : (args.getD (args.length - 1 - i) JValue.null).isNull = false := by
        rw [← hcase]; exact hr
      simp only [hA, Bool.false_eq_true, if_false]
      exact hdLoop_some_gap defaults fuel (i + 1) args (args.length - 1 - i) j
        (by omega) h2 (by omega) (by omega) hjnull hjdef
    · have hrlt : r < args.length - 1 - i := by omega
      have hA : (args.getD (args.length - 1 - i) JValue.null).isNull = true :=
        hright (args.length - 1 - i) (by omega) (by omega)
      simp only [hA, if_true]
      exact ih (i + 1) args r j (by omega) h2 (by omega) (by omega) hr
        (fun j' hj' hj'2 => hright j' hj' (by omega)) (by omega) hj2 hjnull hjdef

/-- If the scanned range has a rightmost non-null slot `r` and every null
slot left of `r` has a non-null default, the run succeeds: `first` ends up
at `r`, null slots strictly left of `r` are filled from their defaults,
and every other slot is unchanged. -/
theorem hdLoop_none_ok (defaults : List JValue) (fuel : Nat) :
    ∀ (i : Nat) (args : List JValue) (r : Nat),
      i + fuel ≤ defaults.length → defaults.length ≤ args.length →
      args.length ≤ r + i + fuel → r + i + 1 ≤ args.length →
      (args.getD r JValue.null).isNull = false →
      (∀ j, r < j → j + i + 1 ≤ args.length →
        (args.getD j JValue.null).isNull = true) →
      (∀ j, args.length ≤ j + i + fuel → j < r →
        (args.getD j JValue.null).isNull = true →
        (defaults.getD (j - (args.length - defaults.length)) JValue.null).isNull = false) →
      ∃ args', hdLoop defaults fuel i args none = some (args', some r) ∧
        args'.length = args.length ∧
        ∀ j, args'.getD j JValue.null =
          if args.length ≤ j + i + fuel ∧ j < r ∧
              (args.getD j JValue.null).isNull = true
          then defaults.getD (j - (args.length - defaults.length)) JValue.null
          else args.getD j JValue.null := by
  induction fuel with
  | zero => intro i args r h1 h2 h3 h4 _ _ _; omega
  | succ fuel ih =>
    intro i args r h1 h2 h3 h4 hr hright hgap
    rw [hdLoop_succ]
    by_cases hcase : r = args.length - 1 - i
    · have hA : (args.getD (args.length - 1 - i) JValue.null).isNull = false := by
        rw [← hcase]; exact hr
      simp only [hA, Bool.false_eq_true, if_false]
      rw [← hcase]
      obtain ⟨args', heq, hlen', hpt⟩ :=
        hdLoop_some_ok defaults fuel (i + 1) args r (by omega) h2
          (fun j hj1 hj2 hj3 => hgap j (by omega) (by omega) hj3)
      refine ⟨args', heq, hlen', fun j => ?_⟩
      rw [hpt j]
      exact if_congr ⟨fun ⟨a, b, c⟩ => ⟨by omega, by omega, c⟩,
        fun ⟨a, b, c⟩ => ⟨by omega, by omega, c⟩⟩ rfl rfl
    · have hrlt : r < args.length - 1 - i := by omega
      have hA : (args.getD (args.length - 1 - i) JValue.null).isNull = true :=
        hright (args.length - 1 - i) (by omega) (by omega)
      simp only [hA, if_true]
      obtain ⟨args', heq, hlen', hpt⟩ :=
        ih (i + 1) args r (by omega) h2 (by omega) (by omega) hr
          (fun j hj hj2 => hright j hj (by omega))
          (fun j hj1 hj2 hj3 => hgap j (by omega) hj2 hj3)
      refine ⟨args', heq, hlen', fun j => ?_⟩
      rw [hpt j]
      exact if_congr ⟨fun ⟨a, b, c⟩ => ⟨by omega, b, c⟩,
        fun ⟨a, b, c⟩ => ⟨by omega, b, c⟩⟩ rfl rfl

theorem rightmostNonNullBelow_none_iff (args : List JValue) (reqN n : Nat) :
    rightmostNonNullBelow args reqN n = none ↔
      ∀ j, reqN ≤ j → j < n → (args.getD j JValue.null).isNull = true := by
  induction n with
  | zero =>
    constructor
    · intro _ j _ hj; omega
    · intro _; rfl
  | succ n ih =>
    unfold rightmostNonNullBelow
    by_cases hc : reqN ≤ n ∧ (args.getD n JValue.null).isNull = false
    · rw [if_pos hc]
      constructor
      · intro h; cases h
      · intro h
        have := h n hc.1 (by omega)
        rw [hc.2] at this
        cases this
    · rw [if_neg hc]
      rw [ih]
      constructor
      · intro h j hj1 hj2
        rcases Nat.lt_or_ge j n with hlt | hge
        · exact h j hj1 hlt
        · have hjn : j = n := by omega
          subst hjn
          rcases Bool.eq_false_or_eq_true ((args.getD j JValue.null).isNull) with hb | hb
          · exact hb
          · exact absurd ⟨hj1, hb⟩ hc
      · intro h j hj1 hj2
        exact h j hj1 (by omega)

theorem rightmostNonNullBelow_some (args : List JValue) (reqN n r : Nat)
    (h : rightmostNonNullBelow args reqN n = some r) :
    reqN ≤ r ∧ r < n ∧ (args.getD r JValue.null).isNull = false ∧
      ∀ j, r < j → j < n → (args.getD j JValue.null).isNull = true := by
  induction n with
  | zero => cases h
  | succ n ih =>
    unfold rightmostNonNullBelow at h
    by_cases hc : reqN ≤ n ∧ (args.getD n JValue.null).isNull = false
    · rw [if_pos hc] at h
      have hr : r = n := by cases h; rfl
      subst hr
      exact ⟨hc.1, by omega, hc.2, fun j hj1 hj2 => by omega⟩
    · rw [if_neg hc] at h
      obtain ⟨h1, h2, h3, h4⟩ := ih h
      refine ⟨h1, by omega, h3, fun j hj1 hj2 => ?_⟩
      rcases Nat.lt_or_ge j n with hlt | hge
      · exact h4 j hj1 hlt
      · have hjn : j = n := by omega
        subst hjn
        rcases Bool.eq_false_or_eq_true ((args.getD j JValue.null).isNull) with hb | hb
        · exact hb
        · exact absurd ⟨by omega, hb⟩ hc

/-- C1: with `N = args.length` and `K = defaults.length` (`N ≥ K`, the last
`K` slots optional), `handle_defaults` returns the required prefix
`args[0 .. N-K]` when every optional slot is null; and when `r` is the
rightmost non-null optional slot (and every null optional slot left of it
has a non-null default, the complementary panic case being claim C2), it
returns a slice of length `r + 1` in which every null optional slot before
`r` has been replaced by its default — in particular no optional slot
before `r` is null in the returned slice — and every other slot is the
original argument. -/
theorem handle_defaults_elision_correct (args defaults : List JValue)
    (hK : defaults.length ≤ args.length) :
    ((∀ j, args.length ≤ j + defaults.length → j < args.length →
        (args.getD j JValue.null).isNull = true) →
      handle_defaults args defaults =
        some (args.take (args.length - defaults.length)))
    ∧
    (∀ r, args.length ≤ r + defaults.length → r < args.length →
      (args.getD r JValue.null).isNull = false →
      (∀ j, r < j → j < args.length → (args.getD j JValue.null).isNull = true) →
      (∀ j, args.length ≤ j + defaults.length → j < r →
        (args.getD j JValue.null).isNull = true →
        (defaults.getD (j - (args.length - defaults.length)) JValue.null).isNull = false) →
      ∃ out, handle_defaults args defaults = some out ∧
        out.length = r + 1 ∧
        (∀ j, j < r + 1 → out.getD j JValue.null =
          if args.length ≤ j + defaults.length ∧
              (args.getD j JValue.null).isNull = true
          then defaults.getD (j - (args.length - defaults.length)) JValue.null
          else args.getD j JValue.null) ∧
        (∀ j, args.length ≤ j + defaults.length → j < r →
          (out.getD j JValue.null).isNull = false)) := by
  constructor
  · intro hall
    unfold handle_defaults
    rw [if_pos hK]
    rw [hdLoop_none_allnull defaults defaults.length 0 args (by omega) hK
      (fun j hj1 hj2 => hall j (by omega) (by omega))]
  · intro r hrlo hrN hrnn hright hgap
    unfold handle_defaults
    rw [if_pos hK]
    obtain ⟨args', heq, hlen', hpt⟩ :=
      hdLoop_none_ok defaults defaults.length 0 args r (by omega) hK
        (by omega) (by omega) hrnn
        (fun j hj hj2 => hright j hj (by omega))
        (fun j hj1 hj2 hj3 => hgap j (by omega) hj2 hj3)
    rw [heq]
    refine ⟨args'.take (r + 1), rfl, ?_, ?_, ?_⟩
    · rw [List.length_take]; omega
    · intro j hj
      rw [getD_take_of_lt _ _ _ _ hj, hpt j]
      refine if_congr ?_ rfl rfl
      constructor
      · rintro ⟨a, -, c⟩; exact ⟨by omega, c⟩
      · rintro ⟨a, c⟩
        refine ⟨by omega, ?_, c⟩
        by_contra hjr
        have hjeq : j = r := by omega
        rw [hjeq, hrnn] at c
        cases c
    · intro j hj1 hj2
      rw [getD_take_of_lt _ _ _ _ (by omega), hpt j]
      by_cases hn : (args.getD j JValue.null).isNull = true
      · rw [if_pos ⟨by omega, hj2, hn⟩]
        exact hgap j hj1 hj2 hn
      · rw [if_neg (by rintro ⟨-, -, c⟩; exact hn c)]
        simpa using hn

/-- C2: if some optional slot is null, its default is also null, and a
non-null optional slot lies to its right, then `handle_defaults` aborts
(the embedded `panic!("Missing `default` for argument idx {}")`, modelled
as `none`): no parameter array is returned. -/
theorem handle_defaults_gap_aborts (args defaults : List JValue) (j r : Nat)
    (hK : defaults.length ≤ args.length)
    (hjlo : args.length ≤ j + defaults.length)
    (hjr : j < r) (hrN : r < args.length)
    (hjnull : (args.getD j JValue.null).isNull = true)
    (hjdef : (defaults.getD (j - (args.length - defaults.length))
      JValue.null).isNull = true)
    (hrnn : (args.getD r JValue.null).isNull = false) :
    handle_defaults args defaults = none := by
  unfold handle_defaults
  rw [if_pos hK]
  rcases hrm : rightmostNonNull args (args.length - defaults.length) with _ | rm
  · exfalso
    have hall := (rightmostNonNullBelow_none_iff args
      (args.length - defaults.length) args.length).1 hrm
    have := hall r (by omega) hrN
    rw [hrnn] at this
    cases this
  · obtain ⟨h1, h2, h3, h4⟩ := rightmostNonNullBelow_some args
      (args.length - defaults.length) args.length rm hrm
    have hrlerm : r ≤ rm := by
      by_contra hlt
      have := h4 r (by omega) hrN
      rw [hrnn] at this
      cases this
    rw [hdLoop_none_gap defaults defaults.length 0 args rm j (by omega) hK
      (by omega) (by omega) h3
      (fun j' hj' hj'2 => h4 j' hj' (by omega))
      (by omega) (by omega) hjnull hjdef]

/-- C9: whenever `handle_defaults` returns a slice, there is an updated
argument array of the original length of which the slice is a prefix;
every required slot and every slot at or after the rightmost non-null
optional slot keeps its original value, and any slot whose value changed
is a null optional slot strictly before the rightmost non-null optional
slot. -/
theorem handle_defaults_frame (args defaults out : List JValue)
    (hK : defaults.length ≤ args.length)
    (h : handle_defaults args defaults = some out) :
    ∃ args' : List JValue, args'.length = args.length ∧
      out = args'.take out.length ∧
      (∀ j, j + defaults.length < args.length →
        args'.getD j JValue.null = args.getD j JValue.null) ∧
      (∀ j, args'.getD j JValue.null ≠ args.getD j JValue.null →
        args.length ≤ j + defaults.length ∧
        (args.getD j JValue.null).isNull = true ∧
        ∃ r, rightmostNonNull args (args.length - defaults.length) = some r ∧
          j < r) ∧
      (∀ r, rightmostNonNull args (args.length - defaults.length) = some r →
        ∀ j, r ≤ j → args'.getD j JValue.null = args.getD j JValue.null) := by
  rcases hrm : rightmostNonNull args (args.length - defaults.length) with _ | rm
  · have hall := (rightmostNonNullBelow_none_iff args
      (args.length - defaults.length) args.length).1 hrm
    have heval : handle_defaults args defaults =
        some (args.take (args.length - defaults.length)) := by
      unfold handle_defaults
      rw [if_pos hK]
      rw [hdLoop_none_allnull defaults defaults.length 0 args (by omega) hK
        (fun j hj1 hj2 => hall j (by omega) (by omega))]
    rw [heval] at h
    have hout : out = args.take (args.length - defaults.length) := by
      injection h with h'
      exact h'.symm
    subst hout
    refine ⟨args, rfl, ?_, fun j _ => rfl, fun j hne => absurd rfl hne,
      fun r' hrm' => ?_⟩
    · have hlt : (args.take (args.length - defaults.length)).length =
          args.length - defaults.length := by
        rw [List.length_take]; omega
      rw [hlt]
    · exact Option.noConfusion hrm'
  · obtain ⟨h1, h2, h3, h4⟩ := rightmostNonNullBelow_some args
      (args.length - defaults.length) args.length rm hrm
    by_cases hgapex : ∃ j, args.length ≤ j + defaults.length ∧ j < rm ∧
        (args.getD j JValue.null).isNull = true ∧
        (defaults.getD (j - (args.length - defaults.length))
          JValue.null).isNull = true
    · exfalso
      obtain ⟨j, hj1, hj2, hj3, hj4⟩ := hgapex
      have heval : handle_defaults args defaults = none := by
        unfold handle_defaults
        rw [if_pos hK]
        rw [hdLoop_none_gap defaults defaults.length 0 args rm j (by omega) hK
          (by omega) (by omega) h3
          (fun j' hj' hj'2 => h4 j' hj' (by omega))
          (by omega) hj2 hj3 hj4]
      rw [heval] at h
      cases h
    · have hgap : ∀ j, args.length ≤ j + defaults.length → j < rm →
          (args.getD j JValue.null).isNull = true →
          (defaults.getD (j - (args.length - defaults.length))
            JValue.null).isNull = false := by
        intro j a b c
        rcases Bool.eq_false_or_eq_true
          ((defaults.getD (j - (args.length - defaults.length))
            JValue.null).isNull) with hb | hb
        · exact absurd ⟨j, a, b, c, hb⟩ hgapex
        · exact hb
      obtain ⟨args', heq, hlen', hpt⟩ :=
        hdLoop_none_ok defaults defaults.length 0 args rm (by omega) hK
          (by omega) (by omega) h3
          (fun j hj hj2 => h4 j hj (by omega))
          (fun j hj1 hj2 hj3 => hgap j (by omega) hj2 hj3)
      have heval : handle_defaults args defaults =
          some (args'.take (rm + 1)) := by
        unfold handle_defaults
        rw [if_pos hK]
        rw [heq]
      rw [heval] at h
      have hout : out = args'.take (rm + 1) := by
        injection h with h'
        exact h'.symm
      have holen : out.length = rm + 1 := by
        rw [hout, List.length_take]; omega
      refine ⟨args', hlen', ?_, ?_, ?_, ?_⟩
      · rw [holen, hout]
      · intro j hjreq
        rw [hpt j, if_neg]
        rintro ⟨a, -, -⟩
        omega
      · intro j hne
        by_cases hc : args.length ≤ j + 0 + defaults.length ∧ j < rm ∧
            (args.getD j JValue.null).isNull = true
        · exact ⟨by omega, hc.2.2, rm, rfl, hc.2.1⟩
        · rw [hpt j, if_neg hc] at hne
          exact absurd rfl hne
      · intro r' hrm' j hj
        have hr' : rm = r' := by injection hrm'
        rw [hpt j, if_neg]
        rintro ⟨-, b, -⟩
        omega

/-- Witness for C1: `N = 4`, `K = 3`, rightmost non-null optional slot at
index 2; the returned slice has length 3. -/
theorem handle_defaults_elision_correct_witness :
    ∃ out, handle_defaults
        [JValue.str "a", JValue.null, JValue.num 1 0, JValue.null]
        [JValue.bool true, JValue.num 7 0, JValue.num 9 0] = some out ∧
      out.length = 3 := by
  obtain ⟨out, hout, hlen, -, -⟩ :=
    (handle_defaults_elision_correct
      [JValue.str "a", JValue.null, JValue.num 1 0, JValue.null]
      [JValue.bool true, JValue.num 7 0, JValue.num 9 0] (by decide)).2 2
      (by decide) (by decide) (by decide)
      (fun j hj1 hj2 => by
        simp only [List.length_cons, List.length_nil] at hj2
        have hj : j = 3 := by omega
        subst hj
        decide)
      (fun j hj1 hj2 hj3 => by
        simp only [List.length_cons, List.length_nil] at hj1
        have hj : j = 1 := by omega
        subst hj
        decide)
  exact ⟨out, hout, hlen⟩

/-- Witness for C2: slot 0 is a null optional with a null default while
slot 1 is a non-null optional, so encoding aborts. -/
theorem handle_defaults_gap_aborts_witness :
    handle_defaults [JValue.null, JValue.num 5 0]
      [JValue.null, JValue.num 0 0] = none :=
  handle_defaults_gap_aborts [JValue.null, JValue.num 5 0]
    [JValue.null, JValue.num 0 0] 0 1 (by decide) (by decide) (by decide)
    (by decide) (by decide) (by decide) (by decide)

/-- Witness for C9: the slice returned on a concrete input is a length-3
prefix of a length-4 updated argument array. -/
theorem handle_defaults_frame_witness :
    ∃ args' : List JValue, args'.length = 4 ∧
      ([JValue.str "a", JValue.bool true, JValue.num 1 0] : List JValue) =
        args'.take
          ([JValue.str "a", JValue.bool true, JValue.num 1 0] :
            List JValue).length := by
  obtain ⟨args', hlen, htake, -, -, -⟩ :=
    handle_defaults_frame
      [JValue.str "a", JValue.null, JValue.num 1 0, JValue.null]
      [JValue.bool true, JValue.num 7 0, JValue.num 9 0]
      [JValue.str "a", JValue.bool true, JValue.num 1 0]
      (by decide) rfl
  exact ⟨args', by simpa using hlen, htake⟩

/-- Error returned when the RPC client expects a different version than
`bitcoind` reports (`client/src/client_sync/error.rs`); `usize` versions
are embedded as `Nat`. -/
structure UnexpectedServerVersionError where
  got : Nat
  expected : List Nat
deriving DecidableEq, Repr

/-- The error type of the sync client (`client/src/client_sync/error.rs`).
Variants wrapping an error value of an external crate (`jsonrpc`,
`serde_json`, `bitcoin`, `std::io`, ...) are embedded without their opaque
payload; the locally defined payloads (`Returned`, `ServerVersion`) are
kept. -/
inductive Error where
  | jsonRpc : Error
  | hex : Error
  | json : Error
  | bitcoinSerialization : Error
  | secp256k1 : Error
  | ioError : Error
  | invalidAmount : Error
  | invalidCookieFile : Error
  | unexpectedStructure : Error
  | returned (s : String) : Error
  | serverVersion (e : UnexpectedServerVersionError) : Error
  | missingUserPassword : Error
deriving DecidableEq, Repr

/-- The authentication methods of the client
(`client/src/client_sync/mod.rs`).  The `CookieFile` variant stores the
path of the cookie file. -/
inductive Auth where
  | none : Auth
  | userPass (user pass : String) : Auth
  | cookieFile (path : String) : Auth

/-- `line.find(':')` of the Rust standard library: index of the first `:`
of the line, if any.  (The byte index Rust returns coincides with this
character index as a split point: the prefix before the first `:` is
exactly the characters before it.) -/
def findColon : List Char → Option Nat
  | [] => Option.none
  | c :: cs => if c = ':' then some 0 else (findColon cs).map (· + 1)

/-- Embedding of `Auth::get_user_pass` (`client/src/client_sync/mod.rs`).
The filesystem is passed explicitly: `fs path` is `none` when
`File::open(path)` fails (the `?` turns the `io::Error` into `Error::Io`)
and otherwise the list of lines of the file, each a list of characters
(`BufReader::lines`; an empty file has no lines).  Only
`.lines().next()` — the first line — is ever read; a missing first line
or a first line without `:` is `Error::InvalidCookieFile`. -/
def Auth.get_user_pass (fs : String → Option (List (List Char))) :
    Auth → Except Error (Option String × Option String)
  | .none => .ok (Option.none, Option.none)
  | .userPass u p => .ok (some u, some p)
  | .cookieFile path =>
    match fs path with
    | Option.none => .error .ioError
    | some lines =>
      match lines.head? with
      | Option.none => .error .invalidCookieFile
      | some line =>
        match findColon line with
        | Option.none => .error .invalidCookieFile
        | some colon =>
          .ok (some (line.take colon).asString, some (line.drop (colon + 1)).asString)

/-- Embedding of the body generated by
`impl_client_check_expected_server_version!` for a list of expected
versions and an already-fetched `server_version`
(`client/src/client_sync/mod.rs`): error out exactly when the reported
version is not contained in the expected list, carrying both. -/
def check_expected_server_version (expected : List Nat) (server_version : Nat) :
    Except Error Unit :=
  if !(expected.contains server_version) then
    .error (.serverVersion ⟨server_version, expected⟩)
  else
    .ok ()

/-- C5: the version check succeeds exactly when the actual version is a
member of the expected list, and otherwise fails with a version-mismatch
error carrying the actual version and the full expected list; in
particular expected `[280000]` against actual `270100` yields
`VersionMismatch {got := 270100, expected := [280000]}`. -/
theorem check_expected_server_version_correct :
    (∀ (expected : List Nat) (actual : Nat),
      check_expected_server_version expected actual =
        if actual ∈ expected then Except.ok ()
        else Except.error (Error.serverVersion ⟨actual, expected⟩))
    ∧ check_expected_server_version [280000] 270100 =
        Except.error (Error.serverVersion ⟨270100, [280000]⟩) := by
  constructor
  · intro expected actual
    unfold check_expected_server_version
    by_cases h : actual ∈ expected
    · have hc : expected.contains actual = true := List.elem_eq_true_of_mem h
      rw [if_pos h, hc]
      rfl
    · have hc : expected.contains actual = false := by simpa using h
      rw [if_neg h, hc]
      rfl
  · rfl

/-- C6: cookie-credential resolution reads only the first line and splits
it on the first `:`; `"alice:s3cret"` yields `(user, pass) =
("alice", "s3cret")`, a first line without `:` or an empty file is an
`InvalidCookieFile` failure, and an unopenable file is a terminal I/O
error. -/
theorem auth_cookie_parse_correct :
    (∀ (fs : String → Option (List (List Char))) (path : String)
        (rest : List (List Char)),
      fs path = some ("alice:s3cret".toList :: rest) →
      Auth.get_user_pass fs (Auth.cookieFile path) =
        Except.ok (some "alice", some "s3cret"))
    ∧
    (∀ (fs : String → Option (List (List Char))) (path : String)
        (line : List Char) (rest : List (List Char)),
      fs path = some (line :: rest) → findColon line = Option.none →
      Auth.get_user_pass fs (Auth.cookieFile path) =
        Except.error Error.invalidCookieFile)
    ∧
    (∀ (fs : String → Option (List (List Char))) (path : String),
      fs path = some [] →
      Auth.get_user_pass fs (Auth.cookieFile path) =
        Except.error Error.invalidCookieFile)
    ∧
    (∀ (fs : String → Option (List (List Char))) (path : String),
      fs path = Option.none →
      Auth.get_user_pass fs (Auth.cookieFile path) =
        Except.error Error.ioError)
    ∧
    (∀ (fs fs' : String → Option (List (List Char))) (path : String)
        (line : List Char) (rest rest' : List (List Char)),
      fs path = some (line :: rest) → fs' path = some (line :: rest') →
      Auth.get_user_pass fs (Auth.cookieFile path) =
        Auth.get_user_pass fs' (Auth.cookieFile path)) := by
  refine ⟨?_, ?_, ?_, ?_, ?_⟩
  · intro fs path rest hfs
    simp only [Auth.get_user_pass]
    rw [hfs]
    rfl
  · intro fs path line rest hfs hcolon
    simp only [Auth.get_user_pass]
    rw [hfs]
    simp only [List.head?_cons, hcolon]
  · intro fs path hfs
    simp only [Auth.get_user_pass]
    rw [hfs]
    rfl
  · intro fs path hfs
    simp only [Auth.get_user_pass]
    rw [hfs]
  · intro fs fs' path line rest rest' hfs hfs'
    simp only [Auth.get_user_pass]
    rw [hfs, hfs']
    rfl

/-- Witness for C6: the four scenarios at a concrete filesystem. -/
theorem auth_cookie_parse_correct_witness :
    Auth.get_user_pass (fun _ => some ["alice:s3cret".toList])
        (Auth.cookieFile "cookie") = Except.ok (some "alice", some "s3cret") ∧
    Auth.get_user_pass (fun _ => some ["no-colon-here".toList])
        (Auth.cookieFile "cookie") = Except.error Error.invalidCookieFile ∧
    Auth.get_user_pass (fun _ => some [])
        (Auth.cookieFile "cookie") = Except.error Error.invalidCookieFile ∧
    Auth.get_user_pass (fun _ => Option.none)
        (Auth.cookieFile "cookie") = Except.error Error.ioError :=
  ⟨auth_cookie_parse_correct.1 _ "cookie" [] rfl,
   auth_cookie_parse_correct.2.1 _ "cookie" "no-colon-here".toList [] rfl rfl,
   auth_cookie_parse_correct.2.2.1 _ "cookie" rfl,
   auth_cookie_parse_correct.2.2.2.1 _ "cookie" rfl⟩

theorem findColon_append (pre post : List Char) (h : ':' ∉ pre) :
    findColon (pre ++ ':' :: post) = some pre.length := by
  induction pre with
  | nil => rfl
  | cons c cs ih =>
    have hc : c ≠ ':' := fun hcc => h (by rw [hcc]; exact List.mem_cons_self _ _)
    have hcs : ':' ∉ cs := fun hmem => h (List.mem_cons_of_mem _ hmem)
    show (if c = ':' then some 0
      else (findColon (cs ++ ':' :: post)).map (· + 1)) = some (cs.length + 1)
    rw [if_neg hc, ih hcs]
    rfl

theorem take_append_length {α : Type} (l₁ l₂ : List α) :
    (l₁ ++ l₂).take l₁.length = l₁ := by
  induction l₁ with
  | nil => rfl
  | cons x xs ih => simp only [List.cons_append, List.length_cons, List.take_succ_cons, ih]

theorem drop_append_length_succ {α : Type} (l₁ l₂ : List α) (a : α) :
    (l₁ ++ a :: l₂).drop (l₁.length + 1) = l₂ := by
  induction l₁ with
  | nil => rfl
  | cons x xs ih => simp only [List.cons_append, List.length_cons, List.drop_succ_cons, ih]

/-- C10: no validation of user or password is performed: any first line
with a colon — including one starting or ending with `:` — succeeds, the
(possibly empty) part before the first colon becoming the username and
the (possibly empty) remainder the password. -/
theorem auth_cookie_no_validation (fs : String → Option (List (List Char)))
    (path : String) (pre post : List Char) (rest : List (List Char))
    (hpre : ':' ∉ pre) (hfs : fs path = some ((pre ++ ':' :: post) :: rest)) :
    Auth.get_user_pass fs (Auth.cookieFile path) =
      Except.ok (some pre.asString, some post.asString) := by
  simp only [Auth.get_user_pass]
  rw [hfs]
  simp only [List.head?_cons, findColon_append pre post hpre]
  rw [take_append_length, drop_append_length_succ]

/-- Witness for C10: lines `":s3cret"` and `"alice:"` both succeed, with
an empty username and an empty password respectively. -/
theorem auth_cookie_no_validation_witness :
    Auth.get_user_pass (fun _ => some [":s3cret".toList])
        (Auth.cookieFile "cookie") = Except.ok (some "", some "s3cret") ∧
    Auth.get_user_pass (fun _ => some ["alice:".toList])
        (Auth.cookieFile "cookie") = Except.ok (some "alice", some "") := by
  constructor
  · have h := auth_cookie_no_validation (fun _ => some [":s3cret".toList])
      "cookie" [] "s3cret".toList [] (by decide) rfl
    simpa using h
  · have h := auth_cookie_no_validation (fun _ => some ["alice:".toList])
      "cookie" "alice".toList [] [] (by decide) rfl
    simpa using h

/-- Error converting an `i64` to a `u32` (`json/src/lib.rs`). -/
inductive NumericError where
  | negative (field : String) (value : Int) : NumericError
  | overflow (field : String) (value : Int) : NumericError
deriving DecidableEq, Repr

/-- Embedding of `to_u32` (`json/src/lib.rs`): `value.is_negative()` is
`value < 0`, and `u32::try_from` on a non-negative `i64` fails exactly
when the value exceeds `u32::MAX = 2^32 - 1`.  The resulting `u32` is
embedded as the equal `Nat`. -/
def to_u32 (value : Int) (field : String) : Except NumericError Nat :=
  if value < 0 then
    .error (.negative field value)
  else if (2 ^ 32 - 1 : Int) < value then
    .error (.overflow field value)
  else
    .ok value.toNat

/-- C7: on a signed wire integer destined for an unsigned model field, a
negative value yields a typed `Negative` error, a value above `u32::MAX`
yields a typed `Overflow` error, and every in-range value converts to the
numerically equal `u32` — never wrapped or truncated.  All signed-to-
unsigned field conversions of the JSON crate route through `to_u32`. -/
theorem to_u32_range_policy (value : Int) (field : String) :
    (value < 0 → to_u32 value field =
      Except.error (NumericError.negative field value))
    ∧ (0 ≤ value → (2 ^ 32 : Int) ≤ value →
        to_u32 value field = Except.error (NumericError.overflow field value))
    ∧ (0 ≤ value → value < 2 ^ 32 →
        ∃ n : Nat, to_u32 value field = Except.ok n ∧ (n : Int) = value ∧
          n < 2 ^ 32) := by
  refine ⟨?_, ?_, ?_⟩
  · intro h
    unfold to_u32
    rw [if_pos h]
  · intro h1 h2
    unfold to_u32
    rw [if_neg (by omega), if_pos (by omega)]
  · intro h1 h2
    unfold to_u32
    rw [if_neg (by omega), if_neg (by omega)]
    refine ⟨value.toNat, rfl, Int.toNat_of_nonneg h1, ?_⟩
    omega

/-- Witness for C7: `-1` is rejected as negative, `2^32` as overflow, and
`7` converts to the equal `u32`. -/
theorem to_u32_range_policy_witness :
    to_u32 (-1) "confirmations" =
      Except.error (NumericError.negative "confirmations" (-1)) ∧
    to_u32 (2 ^ 32) "n" = Except.error (NumericError.overflow "n" (2 ^ 32)) ∧
    ∃ n : Nat, to_u32 7 "height" = Except.ok n ∧ (n : Int) = 7 ∧ n < 2 ^ 32 :=
  ⟨(to_u32_range_policy (-1) "confirmations").1 (by norm_num),
   (to_u32_range_policy (2 ^ 32) "n").2.1 (by norm_num) (by norm_num),
   (to_u32_range_policy 7 "height").2.2 (by norm_num) (by norm_num)⟩

/-- Category of a transaction detail as returned by v17 `gettransaction`
(`json/src/v17/wallet.rs`): a closed five-variant enum deserialized from
lowercase wire strings by serde's `rename_all = "lowercase"` derive. -/
inductive GetTransactionDetailCategory where
  | send : GetTransactionDetailCategory
  | receive : GetTransactionDetailCategory
  | generate : GetTransactionDetailCategory
  | immature : GetTransactionDetailCategory
  | orphan : GetTransactionDetailCategory
deriving DecidableEq, Repr

/-- The canonical model-side category enum (`json/src/model/wallet.rs`). -/
inductive ModelGetTransactionDetailCategory where
  | send : ModelGetTransactionDetailCategory
  | receive : ModelGetTransactionDetailCategory
  | generate : ModelGetTransactionDetailCategory
  | immature : ModelGetTransactionDetailCategory
  | orphan : ModelGetTransactionDetailCategory
deriving DecidableEq, Repr

/-- Wire string of each category variant under serde's
`rename_all = "lowercase"`. -/
def GetTransactionDetailCategory.wireString :
    GetTransactionDetailCategory → String
  | .send => "send"
  | .receive => "receive"
  | .generate => "generate"
  | .immature => "immature"
  | .orphan => "orphan"

/-- Deserialization of the category from a wire string, as generated by
serde for the five-variant `rename_all = "lowercase"` enum: each known
string decodes to its variant; any other string is a deserialization
error (`none`), never a default variant. -/
def categoryFromWire (s : String) : Option GetTransactionDetailCategory :=
  if s = "send" then some .send
  else if s = "receive" then some .receive
  else if s = "generate" then some .generate
  else if s = "immature" then some .immature
  else if s = "orphan" then some .orphan
  else Option.none

/-- Embedding of `GetTransactionDetailCategory::into_model`
(`json/src/v17/wallet.rs`): the evident variant-to-variant map. -/
def GetTransactionDetailCategory.into_model :
    GetTransactionDetailCategory → ModelGetTransactionDetailCategory
  | .send => .send
  | .receive => .receive
  | .generate => .generate
  | .immature => .immature
  | .orphan => .orphan

/-- C8: a wire string outside the closed category set is a conversion
failure, never a default variant; each known wire string decodes to its
variant, and each variant converts to the corresponding model variant. -/
theorem category_enum_closed :
    (∀ s : String, s ≠ "send" → s ≠ "receive" → s ≠ "generate" →
      s ≠ "immature" → s ≠ "orphan" → categoryFromWire s = Option.none)
    ∧ (∀ c : GetTransactionDetailCategory,
        categoryFromWire c.wireString = some c)
    ∧ (categoryFromWire "send").map GetTransactionDetailCategory.into_model =
        some ModelGetTransactionDetailCategory.send
    ∧ (categoryFromWire "receive").map GetTransactionDetailCategory.into_model =
        some ModelGetTransactionDetailCategory.receive
    ∧ (categoryFromWire "generate").map GetTransactionDetailCategory.into_model =
        some ModelGetTransactionDetailCategory.generate
    ∧ (categoryFromWire "immature").map GetTransactionDetailCategory.into_model =
        some ModelGetTransactionDetailCategory.immature
    ∧ (categoryFromWire "orphan").map GetTransactionDetailCategory.into_model =
        some ModelGetTransactionDetailCategory.orphan := by
  refine ⟨?_, ?_, rfl, rfl, rfl, rfl, rfl⟩
  · intro s h1 h2 h3 h4 h5
    unfold categoryFromWire
    rw [if_neg h1, if_neg h2, if_neg h3, if_neg h4, if_neg h5]
  · intro c
    cases c <;> rfl

/-- Witness for C8: the unknown wire string `"bogus"` is rejected, and
`"send"` decodes to the `Send` variant. -/
theorem category_enum_closed_witness :
    categoryFromWire "bogus" = Option.none ∧
    categoryFromWire
        GetTransactionDetailCategory.send.wireString =
      some GetTransactionDetailCategory.send :=
  ⟨category_enum_closed.1 "bogus" (by decide) (by decide) (by decide)
    (by decide) (by decide),
   category_enum_closed.2.1 GetTransactionDetailCategory.send⟩

/-- Value of one hexadecimal digit, if any. -/
def hexDigit? (c : Char) : Option Nat :=
  if '0' ≤ c ∧ c ≤ '9' then some (c.toNat - '0'.toNat)
  else if 'a' ≤ c ∧ c ≤ 'f' then some (c.toNat - 'a'.toNat + 10)
  else if 'A' ≤ c ∧ c ≤ 'F' then some (c.toNat - 'A'.toNat + 10)
  else Option.none

/-- Hex decoding of a character list into bytes (model of the external
`ScriptBuf::from_hex` byte decoding): fails on an odd length or a
non-hex character. -/
def hexBytes? : List Char → Option (List Nat)
  | [] => some []
  | [_] => Option.none
  | c1 :: c2 :: rest =>
    match hexDigit? c1, hexDigit? c2, hexBytes? rest with
    | some hi, some lo, some bs => some ((hi * 16 + lo) :: bs)
    | _, _, _ => Option.none

/-- Model of the external `BlockHash` string parsing (`FromStr`): exactly
64 hex characters decoding to 32 bytes, stored in reverse order (hashes
are displayed backwards). -/
def parseBlockHash (s : String) : Option (List Nat) :=
  if s.toList.length = 64 then (hexBytes? s.toList).map List.reverse
  else Option.none

/-- An exact decimal number `mantissa / 10^scale`, the embedding of the
JSON number literal carried by the wire `value` field.  `serde_json`
parses that literal into an `f64` and `Amount::from_btc` immediately
re-renders the `f64` in shortest round-trip decimal notation before
parsing digits, so for the values at issue the decimal literal passes
through unchanged. -/
structure Decimal where
  mantissa : Int
  scale : Nat
deriving DecidableEq, Repr

/-- Model of the external `Amount::from_btc`: converts a decimal BTC value
to satoshis (`1 BTC = 10^8 sat`), rejecting sub-satoshi precision,
negative amounts, and amounts beyond the `u64` satoshi range. -/
def Amount.from_btc (d : Decimal) : Option Nat :=
  if d.scale ≤ 8 then
    let sats := d.mantissa * (10 : Int) ^ (8 - d.scale)
    if 0 ≤ sats ∧ sats ≤ (2 ^ 64 - 1 : Int) then some sats.toNat
    else Option.none
  else Option.none

/-- The v17 wire `scriptPubkey` object (`json/src/v17/blockchain.rs`). -/
structure ScriptPubkey where
  asm : String
  hex : String
  type_ : String
  address : String

/-- The v17 wire result of `gettxout` (`json/src/v17/blockchain.rs`):
`confirmations` is a signed `i64` on the wire, `value` a decimal BTC
number. -/
structure GetTxOut where
  best_block : String
  confirmations : Int
  value : Decimal
  script_pubkey : ScriptPubkey
  coinbase : Bool

/-- Model-side `TxOut`: amount in integer satoshis, script as raw bytes. -/
structure TxOutModel where
  value : Nat
  script_pubkey : List Nat

/-- Model-side `GetTxOut` (`json/src/model/blockchain.rs`):
`confirmations` stays a signed `i64` — the documented per-field sentinel
policy for this type is signed passthrough ("signed to match other types
with the same field name").  The address produced by the external
`Address::from_str` is kept abstract as the validated string. -/
structure GetTxOutModel where
  best_block : List Nat
  confirmations : Int
  tx_out : TxOutModel
  address : String
  coinbase : Bool

/-- Conversion error for `gettxout` (`json/src/v17/blockchain.rs`); the
opaque payloads of the external parse errors are omitted. -/
inductive GetTxOutError where
  | numeric : GetTxOutError
  | bestBlock : GetTxOutError
  | value : GetTxOutError
  | scriptPubkey : GetTxOutError
  | address : GetTxOutError
deriving DecidableEq, Repr

/-- Embedding of `GetTxOut::into_model` (`json/src/v17/blockchain.rs`):
parse the best-block hash, convert the decimal BTC value to satoshis,
decode the script hex, and parse the address — the external
`Address::from_str` is passed in as `addrParse` — mapping each failure to
its typed error variant; `confirmations` and `coinbase` pass through
unchanged.  The outer `Option` is the panic channel of the embedding: the
function body has no panic site, so every outcome is `some`. -/
def GetTxOut.into_model (addrParse : String → Option String) (t : GetTxOut) :
    Option (Except GetTxOutError GetTxOutModel) :=
  some (
    match parseBlockHash t.best_block with
    | Option.none => .error .bestBlock
    | some bb =>
      match Amount.from_btc t.value with
      | Option.none => .error .value
      | some sats =>
        match hexBytes? t.script_pubkey.hex.toList with
        | Option.none => .error .scriptPubkey
        | some script =>
          match addrParse t.script_pubkey.address with
          | Option.none => .error .address
          | some addr =>
            .ok ⟨bb, t.confirmations, ⟨sats, script⟩, addr, t.coinbase⟩)

/-- C3: the v17 `gettxout` wire response with `confirmations = -1`,
`bestblock` sixty-four `0` hex digits and `value = 0.0005` BTC converts
successfully; the model amount is `50000` satoshis (`0.0005 × 10^8`) and
`confirmations` is preserved as the signed value `-1` — the documented
signed-passthrough sentinel policy — not coerced to `0` or wrapped to an
unsigned value. -/
theorem gettxout_sentinel_and_value (addrParse : String → Option String)
    (a asm type_ : String) (h : addrParse "addr" = some a) :
    GetTxOut.into_model addrParse
      { best_block := String.mk (List.replicate 64 '0'),
        confirmations := -1,
        value := ⟨5, 4⟩,
        script_pubkey := ⟨asm, "00", type_, "addr"⟩,
        coinbase := false } =
      some (Except.ok
        { best_block := List.replicate 32 0,
          confirmations := -1,
          tx_out := ⟨50000, [0]⟩,
          address := a,
          coinbase := false }) := by
  have key : GetTxOut.into_model addrParse
      { best_block := String.mk (List.replicate 64 '0'),
        confirmations := -1,
        value := ⟨5, 4⟩,
        script_pubkey := ⟨asm, "00", type_, "addr"⟩,
        coinbase := false } =
      some (
        match addrParse "addr" with
        | Option.none => Except.error GetTxOutError.address
        | some addr =>
          Except.ok
            { best_block := List.replicate 32 0,
              confirmations := -1,
              tx_out := ⟨50000, [0]⟩,
              address := addr,
              coinbase := false }) := rfl
  rw [key, h]

/-- Witness for C3: the trivially succeeding address parser. -/
theorem gettxout_sentinel_and_value_witness :
    GetTxOut.into_model (fun s => some s)
      { best_block := String.mk (List.replicate 64 '0'),
        confirmations := -1,
        value := ⟨5, 4⟩,
        script_pubkey := ⟨"", "00", "", "addr"⟩,
        coinbase := false } =
      some (Except.ok
        { best_block := List.replicate 32 0,
          confirmations := -1,
          tx_out := ⟨50000, [0]⟩,
          address := "addr",
          coinbase := false }) :=
  gettxout_sentinel_and_value (fun s => some s) "addr" "" "" rfl

/-- Status of a softfork (`json/src/v17/blockchain.rs`). -/
structure SoftforkReject where
  status : Bool

/-- A softfork entry (`json/src/v17/blockchain.rs`). -/
structure Softfork where
  id : String
  version : Int
  reject : SoftforkReject

/-- BIP-9 softfork status (`json/src/v17/blockchain.rs`). -/
inductive Bip9SoftforkStatus where
  | defined : Bip9SoftforkStatus
  | started : Bip9SoftforkStatus
  | lockedIn : Bip9SoftforkStatus
  | active : Bip9SoftforkStatus
  | failed : Bip9SoftforkStatus

/-- A BIP-9 softfork entry (`json/src/v17/blockchain.rs`). -/
structure Bip9Softfork where
  status : Bip9SoftforkStatus
  bit : Option Nat
  start_time : Int
  timeout : Int
  since : Int

/-- The v17 wire result of `getblockchaininfo`
(`json/src/v17/blockchain.rs`); the `f64` fields are embedded as exact
decimals and the `BTreeMap` as an association list. -/
structure GetBlockchainInfo where
  chain : String
  blocks : Int
  headers : Int
  best_block_hash : String
  difficulty : Decimal
  median_time : Int
  verification_progress : Decimal
  initial_block_download : Bool
  chain_work : String
  size_on_disk : Nat
  pruned : Bool
  prune_height : Option Int
  automatic_pruning : Option Bool
  prune_target_size : Option Int
  softforks : List Softfork
  bip9_softforks : List (String × Bip9Softfork)
  warnings : String

/-- Embedding of `impl TryFrom<v17::GetBlockchainInfo> for
model::GetBlockchainInfo` (`json/src/v17/blockchain/convert.rs`): its
body is `todo!("softfork fields have changed considerably by v22")`, an
unconditional panic, embedded as `none` for every input and every model
result type `α`; the declared `TryFrom` error type is `()`. -/
def tryFrom_GetBlockchainInfo (α : Type) (_ : GetBlockchainInfo) :
    Option (Except Unit α) :=
  Option.none

/-- Counterexample to C4: the per-method conversion
`TryFrom<v17::GetBlockchainInfo> for model::GetBlockchainInfo` cited by
the claim panics (`todo!`) on every wire input — evaluated here at a
concrete one — so not every conversion is total, and a panic is reachable
from server-controlled input. -/
theorem conversion_totality_counterexample :
    tryFrom_GetBlockchainInfo Unit
      { chain := "main", blocks := 0, headers := 0,
        best_block_hash := "", difficulty := ⟨0, 0⟩, median_time := 0,
        verification_progress := ⟨0, 0⟩, initial_block_download := false,
        chain_work := "", size_on_disk := 0, pruned := false,
        prune_height := Option.none, automatic_pruning := Option.none,
        prune_target_size := Option.none, softforks := [],
        bip9_softforks := [], warnings := "" } = Option.none := rfl

/-- C4 (amended): the embedded per-method conversions return a result
(`Ok` or a typed error) on every input — in particular
`GetTxOut::into_model` never reaches its panic channel — with the single
exception of the explicitly deferred `TryFrom<v17::GetBlockchainInfo>`,
whose `todo!` body panics on every input. -/
theorem conversion_totality_amended :
    (∀ (addrParse : String → Option String) (t : GetTxOut),
      ∃ r, GetTxOut.into_model addrParse t = some r)
    ∧ (∀ (value : Int) (field : String),
        (∃ n, to_u32 value field = Except.ok n) ∨
        (∃ e, to_u32 value field = Except.error e))
    ∧ (∀ t : GetBlockchainInfo,
        tryFrom_GetBlockchainInfo Unit t = Option.none) := by
  refine ⟨fun addrParse t => ⟨_, rfl⟩, ?_, fun t => rfl⟩
  intro value field
  unfold to_u32
  by_cases h1 : value < 0
  · rw [if_pos h1]
    exact Or.inr ⟨_, rfl⟩
  · rw [if_neg h1]
    by_cases h2 : (2 ^ 32 - 1 : Int) < value
    · rw [if_pos h2]
      exact Or.inr ⟨_, rfl⟩
    · rw [if_neg h2]
      exact Or.inl ⟨_, rfl⟩

end BitcoindRpc
